import Mathlib

/-
Verification of the parallel subproof context engine of the carcara proof
checker (src/carcara/src/ast/context.rs).  Terms, the term pool and the
`Substitution` type live outside the provided sources, so they are modelled
from the specification; the context-stack logic (`push_from_id`, `pop`,
`catch_up_cumulative`, `apply`, `apply_previous`,
`build_simultaneous_substitution`) is translated directly from context.rs.
Interning makes term identity coincide with structural equality, so the pool
is not represented: `pool.add` is the identity and `pool.sort` is `sortOf`.
-/

/-- Modelled from the spec: terms (src `ast::Term`, not under src/).  The spec
only exercises atomic sorts, sorted variables and unary function applications
carrying their result sort, mirroring `Term::Sort`, `Term::new_var` and
curried applications.  No binders occur in the claims, so capture-avoidance
is vacuous here. -/
inductive Term where
  | sort : String → Term
  | var : String → Term → Term
  | app : String → Term → Term → Term
deriving DecidableEq, Repr

/-- Modelled from the spec: the pool's sort lookup `pool.sort(term)` (the
term pool is not under src/).  A variable or application carries its sort;
the sort of a sort is itself. -/
def sortOf : Term → Term
  | .sort s => .sort s
  | .var _ st => st
  | .app _ st _ => st

/-- Whether a term is a variable term. -/
def Term.isVar : Term → Bool
  | .var _ _ => true
  | _ => false

/-- A sorted variable declaration `(name, sort)`. -/
abbrev SortedVar := String × Term

/-- Modelled from the spec: the error taxonomy of `Substitution::insert`
(src `ast::substitution`, not under src/). -/
inductive SubstitutionError where
  | notAVariable : Term → SubstitutionError
  | sortMismatch : Term → Term → SubstitutionError
deriving DecidableEq, Repr

/-- The underlying map of a substitution, as an association list standing in
for the hash map `Substitution::map`.  Lookups see the first matching key. -/
abbrev Smap := List (Term × Term)

/-- Hash-map lookup `map.get(term)`. -/
def smapGet : Smap → Term → Option Term
  | [], _ => none
  | (k, v) :: rest, t => if k = t then some v else smapGet rest t

/-- Hash-map insertion `map.insert(k, v)`: replaces the entry of an existing
key, otherwise adds a new entry. -/
def smapInsert : Smap → Term → Term → Smap
  | [], k, v => [(k, v)]
  | (k', v') :: rest, k, v =>
    if k' = k then (k, v) :: rest else (k', v') :: smapInsert rest k v

/-- Modelled from the spec: `Substitution::apply` (not under src/) traverses
the term and replaces free occurrences of any key by its value, in a single
pass (the iterated variant is the separate fixed-point substitution).  The
whole subterm is looked up first, exactly like the source's `map.get(term)`
fast path. -/
def applyT (m : Smap) (t : Term) : Term :=
  match smapGet m t with
  | some v => v
  | none =>
    match t with
    | .app f st a => .app f st (applyT m a)
    | t' => t'

/-- Modelled from the spec: `Substitution` (not under src/); its cache field
is a pure memoisation and is omitted. -/
structure Substitution where
  map : Smap
deriving DecidableEq, Repr

/-- `Substitution::empty`. -/
def Substitution.empty : Substitution := ⟨[]⟩

/-- `Substitution::apply` lifted to the structure. -/
def Substitution.apply (s : Substitution) (t : Term) : Term := applyT s.map t

/-- Modelled from the spec: `Substitution::insert` fails with `NotAVariable`
if the key is not a variable term and with `SortMismatch` if the value's sort
differs from the key's sort. -/
def Substitution.insert (sub : Substitution) (k v : Term) :
    Except SubstitutionError Substitution :=
  if k.isVar then
    if sortOf k = sortOf v then .ok ⟨smapInsert sub.map k v⟩
    else .error (.sortMismatch (sortOf k) (sortOf v))
  else .error (.notAVariable k)

/-- Well-formedness of a raw map: every key is a variable whose sort equals
its value's sort. -/
def smapWF (m : Smap) : Bool :=
  m.all fun kv => kv.1.isVar && decide (sortOf kv.1 = sortOf kv.2)

/-- Modelled from the spec: `Substitution::new(pool, map)` validates each
entry (variable keys, matching sorts); the caller in `catch_up_cumulative`
unwraps the result, so failure is a panic, modelled as `none`. -/
def Substitution.new (m : Smap) : Option Substitution :=
  if smapWF m then some ⟨m⟩ else none

/-- One step of `build_simultaneous_substitution`'s loop as an `Option`
(`insert` is unwrapped in the source, so an error is a panic). -/
def stepIns (s : Substitution) (x e : Term) : Option Substitution :=
  match s.insert x (s.apply e) with
  | .ok s' => some s'
  | .error _ => none

/-- The loop of `build_simultaneous_substitution` (context.rs:481-487): each
new value is first rewritten by the substitution accumulated so far, then
inserted. -/
def build_simultaneous_loop (acc : Substitution) :
    List (Term × Term) → Option Substitution
  | [] => some acc
  | (x, e) :: rest =>
    match stepIns acc x e with
    | some acc' => build_simultaneous_loop acc' rest
    | none => none

/-- `build_simultaneous_substitution` (context.rs:469-489), folding the
mappings in declared order starting from the empty substitution. -/
def build_simultaneous_substitution (ms : List (Term × Term)) :
    Option Substitution :=
  build_simultaneous_loop Substitution.empty ms

/-- A `Context` frame (context.rs:10-14): the raw mappings in declared order,
the bound variables, and the lazily installed cumulative substitution. -/
structure Context where
  mappings : List (Term × Term)
  bindings : List SortedVar
  cumulative_substitution : Option Substitution
deriving DecidableEq, Repr

/-- One `GlobalContextInfo` registry slot (context.rs:163): the number of
threads that will still use this context, and the droppable context payload.
The `RwLock`s are modelled away: operations are interleaved atomically. -/
structure Slot where
  remaining : Nat
  payload : Option Context
deriving DecidableEq, Repr

/-- Indexing `vec[i]` with a default (claims only exercise in-range ids). -/
def nth {α : Type} : List α → Nat → α → α
  | [], _, d => d
  | a :: _, 0, _ => a
  | _ :: t, n + 1, d => nth t n d

/-- In-place update `vec[i] = a`; a no-op when out of range. -/
def upd {α : Type} : List α → Nat → α → List α
  | [], _, _ => []
  | _ :: t, 0, a => a :: t
  | h :: t, n + 1, a => h :: upd t n a

/-- The default registry slot used for (never-claimed) out-of-range reads. -/
def dSlot : Slot := ⟨0, none⟩

/-- The loop of `push_from_id` building both the plain substitution and the
fixed-point substitution (context.rs:325-332); either `insert` may fail and
the error propagates out of `push_from_id` with the `?` operator. -/
def buildSubstPair (sub fix : Substitution) :
    List (String × Term) → Except SubstitutionError (Substitution × Substitution)
  | [] => .ok (sub, fix)
  | (v, value) :: rest =>
    let vt := Term.var v (sortOf value)
    match sub.insert vt value with
    | .error e => .error e
    | .ok sub' =>
      match fix.insert vt (fix.apply value) with
      | .error e => .error e
      | .ok fix' => buildSubstPair sub' fix' rest

/-- The builder branch of `push_from_id` (context.rs:309-348): run the
fixed-point build loop, then assemble the `Context` from the assignment and
variable arguments. -/
def buildContextFromArgs (args : List (String × Term)) (vargs : List SortedVar) :
    Except SubstitutionError Context :=
  match buildSubstPair Substitution.empty Substitution.empty args with
  | .error e => .error e
  | .ok _ =>
    .ok { mappings := args.map fun p => (Term.var p.1 (sortOf p.2), p.2)
          bindings := vargs
          cumulative_substitution := none }

/-- `MultiThreadContextStack::ContextStack::push_from_id` (context.rs:292-358)
acting on the shared registry and one worker's local stack.  `lockOk` is the
outcome of `try_write`: when it fails (another worker holds the write lock)
the worker skips building; when it succeeds it builds only if the payload is
still `None`.  In every non-error case the id is pushed onto the local
stack.  A build error returns before the push, leaving both unchanged. -/
def pushFromIdCore (vec : List Slot) (stk : List Nat)
    (args : List (String × Term)) (vargs : List SortedVar)
    (id : Nat) (lockOk : Bool) :
    Except SubstitutionError (List Slot × List Nat) :=
  if lockOk then
    match (nth vec id dSlot).payload with
    | some _ => .ok (vec, stk ++ [id])
    | none =>
      match buildContextFromArgs args vargs with
      | .error e => .error e
      | .ok ctx =>
        .ok (upd vec id ⟨(nth vec id dSlot).remaining, some ctx⟩, stk ++ [id])
  else .ok (vec, stk ++ [id])

/-- `MultiThreadContextStack::ContextStack::pop` (context.rs:360-378): remove
the top id (silently doing nothing to the registry when the stack is empty),
assert the slot's counter is positive (`none` models the fatal assertion),
decrement it, drop the payload at zero, and clamp the number of calculated
cumulative substitutions to the new stack length. -/
def popCore (vec : List Slot) (stk : List Nat) (nc : Nat) :
    Option (List Slot × List Nat × Nat) :=
  match stk.getLast? with
  | none => some (vec, [], min nc 0)
  | some id =>
    let stk' := stk.dropLast
    let slot := nth vec id dSlot
    if slot.remaining = 0 then none
    else
      some (upd vec id ⟨slot.remaining - 1,
              if slot.remaining - 1 = 0 then none else slot.payload⟩,
            stk', min nc stk'.length)

/-- The per-worker `MultiThreadContextStack::ContextStack` (context.rs:209).
The `Arc`-shared `context_vec` is carried in the state; the stack holds the
slot indices (`InternalContextElement::Global`). -/
structure ContextStack where
  contextVec : List Slot
  stack : List Nat
  numCumulativeCalculated : Nat
deriving DecidableEq, Repr

/-- `ContextStack::from_usage` (context.rs:227-240). -/
def ContextStack.from_usage (usage : List Nat) : ContextStack :=
  ⟨usage.map fun u => ⟨u, none⟩, [], 0⟩

/-- The multi-threaded `ContextStack::push` (context.rs:280-290): it ignores
its arguments, mutates nothing, and unconditionally returns
`Err(SubstitutionError::NotAVariable(Term::Sort(Sort::Bool)))`. -/
def ContextStack.push (s : ContextStack) (_args : List (String × Term))
    (_vargs : List SortedVar) : ContextStack × Except SubstitutionError Unit :=
  (s, .error (.notAVariable (Term.sort "Bool")))

/-- `ContextStack::push_from_id` on the worker's own state. -/
def ContextStack.push_from_id (s : ContextStack) (args : List (String × Term))
    (vargs : List SortedVar) (id : Nat) (lockOk : Bool) :
    Except SubstitutionError ContextStack :=
  match pushFromIdCore s.contextVec s.stack args vargs id lockOk with
  | .error e => .error e
  | .ok (vec, stk) => .ok ⟨vec, stk, s.numCumulativeCalculated⟩

/-- `ContextStack::pop` on the worker's own state (`none` is the fatal
assertion on counter underflow). -/
def ContextStack.pop (s : ContextStack) : Option ContextStack :=
  match popCore s.contextVec s.stack s.numCumulativeCalculated with
  | none => none
  | some (vec, stk, nc) => some ⟨vec, stk, nc⟩

/-- One write of the merge loop of `catch_up_cumulative` (context.rs:414-419):
`cumulative_substitution.insert(k, simultaneous.get(v).unwrap_or(v))` — the
previous value is rewritten by a whole-term lookup in the simultaneous map,
not by applying it. -/
def mergeStep (simul cum : Smap) (kv : Term × Term) : Smap :=
  smapInsert cum kv.1 ((smapGet simul kv.2).getD kv.2)

/-- The merge loop of `catch_up_cumulative` (context.rs:414-420): starting
from a clone of the current frame's simultaneous substitution, write every
entry `(k, v)` of the previous cumulative substitution last. -/
def mergeCumul (simul prev : Smap) : Smap :=
  prev.foldl (mergeStep simul) simul

/-- One iteration of `catch_up_cumulative`'s loop (context.rs:381-426) at
frame index `i = num_cumulative_calculated`: read the frame's context (the
`unwrap`s on a missing payload or missing previous cumulative substitution
are panics, modelled as `none`), build its simultaneous substitution, merge
in the previous frame's cumulative substitution when `i > 0`, validate with
`Substitution::new(..).unwrap()`, and install the result in the slot. -/
def catchUpStep (s : ContextStack) : Option ContextStack :=
  let i := s.numCumulativeCalculated
  match s.stack.get? i with
  | none => none
  | some id =>
    let slot := nth s.contextVec id dSlot
    match slot.payload with
    | none => none
    | some ctx =>
      match build_simultaneous_substitution ctx.mappings with
      | none => none
      | some simul =>
        let merged : Option Smap :=
          if i > 0 then
            match s.stack.get? (i - 1) with
            | none => some simul.map
            | some pid =>
              match (nth s.contextVec pid dSlot).payload with
              | none => none
              | some pctx =>
                match pctx.cumulative_substitution with
                | none => none
                | some psub => some (mergeCumul simul.map psub.map)
          else some simul.map
        match merged with
        | none => none
        | some cum =>
          match Substitution.new cum with
          | none => none
          | some csub =>
            some { s with
                   contextVec := upd s.contextVec id
                     ⟨slot.remaining, some { ctx with cumulative_substitution := some csub }⟩,
                   numCumulativeCalculated := i + 1 }

/-- The loop of `catch_up_cumulative`, driven by the number of remaining
iterations; each step advances `num_cumulative_calculated` by one. -/
def catchUpLoop : Nat → ContextStack → Option ContextStack
  | 0, s => some s
  | n + 1, s =>
    match catchUpStep s with
    | none => none
    | some s' => catchUpLoop n s'

/-- `catch_up_cumulative(up_to)` (context.rs:380-427): iterate from
`num_cumulative_calculated` up to `max(up_to + 1, stack.len())`. -/
def ContextStack.catch_up_cumulative (s : ContextStack) (upTo : Nat) :
    Option ContextStack :=
  catchUpLoop (max (upTo + 1) s.stack.length - s.numCumulativeCalculated) s

/-- `get_substitution` followed by applying the installed cumulative
substitution, shared by `apply` and `apply_previous` (context.rs:429-465);
the asserted in-range index and the `unwrap`s are panics, modelled as
`none`. -/
def applyAtIndex (s : ContextStack) (index : Nat) (t : Term) :
    Option (ContextStack × Term) :=
  if index < s.stack.length then
    match s.catch_up_cumulative index with
    | none => none
    | some s' =>
      match s'.stack.get? index with
      | none => none
      | some id =>
        match (nth s'.contextVec id dSlot).payload with
        | none => none
        | some ctx =>
          match ctx.cumulative_substitution with
          | none => none
          | some sub => some (s', sub.apply t)
  else none

/-- `ContextStack::apply` (context.rs:454-465): the identity on an empty
stack, otherwise apply the cumulative substitution at the top frame. -/
def ContextStack.apply (s : ContextStack) (t : Term) :
    Option (ContextStack × Term) :=
  if s.stack.isEmpty then some (s, t)
  else applyAtIndex s (s.stack.length - 1) t

/-- `ContextStack::apply_previous` (context.rs:441-452): the identity when
fewer than two frames are open, otherwise apply the cumulative substitution
at the frame below the top. -/
def ContextStack.apply_previous (s : ContextStack) (t : Term) :
    Option (ContextStack × Term) :=
  if s.stack.length < 2 then some (s, t)
  else applyAtIndex s (s.stack.length - 2) t

/-- The per-worker local data: the worker's stack of open slot indices and
its `num_cumulative_calculated` bookkeeping. -/
structure WorkerLocal where
  stack : List Nat
  numCalc : Nat
deriving DecidableEq, Repr

/-- The default worker used for out-of-range worker indices. -/
def dWorker : WorkerLocal := ⟨[], 0⟩

/-- The shared state of a parallel run: the `Arc`-shared registry plus every
worker's local stack (each worker's `ContextStack` shares `context_vec`). -/
structure GlobalState where
  contextVec : List Slot
  workers : List WorkerLocal
deriving DecidableEq, Repr

/-- An operation some worker performs on the shared registry.  For a push,
`lockOk` records whether the worker's `try_write` succeeded; operations are
linearised at the granularity of whole calls. -/
inductive WOp where
  | pushOp : Nat → List (String × Term) → List SortedVar → Nat → Bool → WOp
  | popOp : Nat → WOp
deriving DecidableEq, Repr

/-- Execute one worker operation on the shared state; `none` models a panic
or a fatal substitution error aborting the run. -/
def GlobalState.step (g : GlobalState) : WOp → Option GlobalState
  | .pushOp w args vargs id lockOk =>
    let ws := nth g.workers w dWorker
    match pushFromIdCore g.contextVec ws.stack args vargs id lockOk with
    | .error _ => none
    | .ok (vec, stk) => some ⟨vec, upd g.workers w ⟨stk, ws.numCalc⟩⟩
  | .popOp w =>
    let ws := nth g.workers w dWorker
    match popCore g.contextVec ws.stack ws.numCalc with
    | none => none
    | some (vec, stk, nc) => some ⟨vec, upd g.workers w ⟨stk, nc⟩⟩

/-- Run a linearised trace of worker operations. -/
def runOps (g : GlobalState) : List WOp → Option GlobalState
  | [] => some g
  | op :: rest =>
    match g.step op with
    | none => none
    | some g' => runOps g' rest

/-- Whether executing `op` in state `g` performs the build of slot `id`: a
push on `id` whose `try_write` succeeded while the payload was still `None`. -/
def buildsAt (g : GlobalState) (id : Nat) : WOp → Bool
  | .pushOp _ _ _ id' lockOk =>
    id' == id && lockOk && (nth g.contextVec id' dSlot).payload.isNone
  | .popOp _ => false

/-- How many operations of the trace perform the build of slot `id`. -/
def buildCount (g : GlobalState) (id : Nat) : List WOp → Nat
  | [] => 0
  | op :: rest =>
    (if buildsAt g id op then 1 else 0) +
      match g.step op with
      | none => 0
      | some g' => buildCount g' id rest

/-- Whether an operation is a push. -/
def isPushOp : WOp → Bool
  | .pushOp _ _ _ _ _ => true
  | .popOp _ => false

/-- A trace consisting only of pushes (no context is ever dropped). -/
def pushesOnly (ops : List WOp) : Bool := ops.all isPushOp

/-- All pushed context ids are within the registry (Rust would panic on an
out-of-range index). -/
def idsBelow (n : Nat) (ops : List WOp) : Bool :=
  ops.all fun op =>
    match op with
    | .pushOp _ _ _ id _ => decide (id < n)
    | .popOp _ => true

/-- Whether an operation's `try_write` succeeded (vacuous for pops).  At push
granularity no other worker holds the lock, so real traces satisfy this. -/
def opLockOk : WOp → Bool
  | .pushOp _ _ _ _ lockOk => lockOk
  | .popOp _ => true

/-- All pushes in the trace acquired the write lock. -/
def allLockOk (ops : List WOp) : Bool := ops.all opLockOk

/-- Whether an operation is a push on context id `id`. -/
def isPushOn (id : Nat) : WOp → Bool
  | .pushOp _ _ _ id' _ => id' == id
  | .popOp _ => false

/-- The atomic sort used by the concrete scenarios. -/
def sS : Term := .sort "S"

/-- The variable `x` of the scenarios. -/
def xv : Term := .var "x" sS

/-- The variable `y` of the scenarios. -/
def yv : Term := .var "y" sS

/-- The variable `z` of the scenarios. -/
def zv : Term := .var "z" sS

/-- The variable `w` of the scenarios. -/
def wv : Term := .var "w" sS

/-- The term `f(y)`. -/
def fy : Term := .app "f" sS yv

/-- The term `f(z)`. -/
def fz : Term := .app "f" sS zv

/-- The term `f(w)`. -/
def fw : Term := .app "f" sS wv

/-- Scenario C of the spec: push `[("y", z)]` as context 0, then
`[("x", f(y))]` as context 1, on a fresh two-slot registry. -/
def scenC : Except SubstitutionError ContextStack :=
  (ContextStack.from_usage [1, 1]).push_from_id [("y", zv)] [] 0 true >>=
    fun s => s.push_from_id [("x", fy)] [] 1 true

/-- A nested scenario with a compound outer value: push `[("x", f(z))]` as
context 0, then `[("z", w)]` as context 1. -/
def scen2 : Except SubstitutionError ContextStack :=
  (ContextStack.from_usage [1, 1]).push_from_id [("x", fz)] [] 0 true >>=
    fun s => s.push_from_id [("z", wv)] [] 1 true

/-- A key collision scenario: push `[("x", z)]` as context 0, then
`[("x", w)]` as context 1 — `x` is assigned in both frames. -/
def scen4 : Except SubstitutionError ContextStack :=
  (ContextStack.from_usage [1, 1]).push_from_id [("x", zv)] [] 0 true >>=
    fun s => s.push_from_id [("x", wv)] [] 1 true

/-- The term a scenario's `apply` rewrites `t` to (`none` on error/panic). -/
def applySnd (r : Except SubstitutionError ContextStack) (t : Term) : Option Term :=
  match r with
  | .error _ => none
  | .ok s => (s.apply t).map Prod.snd

/-- The term a scenario's `apply_previous` rewrites `t` to. -/
def applyPrevSnd (r : Except SubstitutionError ContextStack) (t : Term) : Option Term :=
  match r with
  | .error _ => none
  | .ok s => (s.apply_previous t).map Prod.snd

/-- The assignment args `[("x", z)]` used by the shared-slot scenarios. -/
def argA : List (String × Term) := [("x", zv)]

/-- Scenario D of the spec: one slot with usage 2, two workers. -/
def gD : GlobalState := ⟨[⟨2, none⟩], [dWorker, dWorker]⟩

/-- Scenario D trace: both workers push context 0, then both pop. -/
def opsD : List WOp :=
  [.pushOp 0 argA [] 0 true, .pushOp 1 argA [] 0 true, .popOp 0, .popOp 1]

/-- Scenario F of the spec: one slot with usage 1, but two workers use it. -/
def gF : GlobalState := ⟨[⟨1, none⟩], [dWorker, dWorker]⟩

/-- Scenario F prefix: both workers push context 0, worker 0 pops. -/
def opsF3 : List WOp :=
  [.pushOp 0 argA [] 0 true, .pushOp 1 argA [] 0 true, .popOp 0]

/-- Scenario F full trace: worker 1 also pops, underflowing the counter. -/
def opsF : List WOp := opsF3 ++ [.popOp 1]

/-- The two concurrent pushes of context 0 by workers 0 and 1 alone. -/
def opsW : List WOp := [.pushOp 0 argA [] 0 true, .pushOp 1 argA [] 0 true]

/-- A sample already-built empty context. -/
def cEx : Context := ⟨[], [], none⟩

lemma upd_length {α : Type} (l : List α) (i : Nat) (a : α) :
    (upd l i a).length = l.length := by
  induction l generalizing i with
  | nil => cases i <;> rfl
  | cons h t ih => cases i with
    | zero => rfl
    | succ n => simpa [upd] using ih n

lemma nth_upd_self {α : Type} (l : List α) (i : Nat) (a d : α) (h : i < l.length) :
    nth (upd l i a) i d = a := by
  induction l generalizing i with
  | nil => simp at h
  | cons hd t ih => cases i with
    | zero => rfl
    | succ n => simpa [upd, nth] using ih n (by simpa using h)

lemma nth_upd_ne {α : Type} (l : List α) (i j : Nat) (a d : α) (h : i ≠ j) :
    nth (upd l i a) j d = nth l j d := by
  induction l generalizing i j with
  | nil => cases i <;> rfl
  | cons hd t ih => cases i with
    | zero => cases j with
      | zero => exact absurd rfl h
      | succ m => rfl
    | succ n => cases j with
      | zero => rfl
      | succ m => simpa [upd, nth] using ih n m (by omega)

lemma smapGet_insert_self (m : Smap) (k v : Term) :
    smapGet (smapInsert m k v) k = some v := by
  induction m with
  | nil => simp [smapInsert, smapGet]
  | cons p rest ih =>
    by_cases h : p.1 = k
    · simp [smapInsert, h, smapGet]
    · simp [smapInsert, h, smapGet, ih]

lemma smapGet_insert_ne (m : Smap) (k k' v : Term) (h : k' ≠ k) :
    smapGet (smapInsert m k' v) k = smapGet m k := by
  induction m with
  | nil => simp [smapInsert, smapGet, h]
  | cons p rest ih =>
    by_cases hp : p.1 = k'
    · simp [smapInsert, hp, smapGet, h]
    · simp [smapInsert, hp, smapGet, ih]

lemma mergeFold_get_not_mem (simul : Smap) :
    ∀ (ps : List (Term × Term)) (acc : Smap) (k : Term),
      k ∉ ps.map Prod.fst →
      smapGet (ps.foldl (mergeStep simul) acc) k = smapGet acc k := by
  intro ps
  induction ps with
  | nil => intro acc k _; rfl
  | cons p rest ih =>
    intro acc k hk
    simp only [List.map_cons, List.mem_cons] at hk
    push_neg at hk
    simp only [List.foldl_cons]
    rw [ih _ k hk.2, mergeStep, smapGet_insert_ne _ _ _ _ (fun h => hk.1 h.symm)]

lemma mergeFold_get_mem (simul : Smap) :
    ∀ (ps : List (Term × Term)) (acc : Smap) (k v : Term),
      (ps.map Prod.fst).Nodup → smapGet ps k = some v →
      smapGet (ps.foldl (mergeStep simul) acc) k =
        some ((smapGet simul v).getD v) := by
  intro ps
  induction ps with
  | nil => intro acc k v _ h; simp [smapGet] at h
  | cons p rest ih =>
    intro acc k v hnd hget
    simp only [List.map_cons, List.nodup_cons] at hnd
    simp only [List.foldl_cons]
    by_cases hk : p.1 = k
    · have hv : p.2 = v := by
        simpa [smapGet, hk] using hget
      subst hk hv
      rw [mergeFold_get_not_mem simul rest _ _ hnd.1, mergeStep, smapGet_insert_self]
    · have hget' : smapGet rest k = some v := by
        simpa [smapGet, hk] using hget
      exact ih _ k v hnd.2 hget'

lemma mergeCumul_get (simul prev : Smap) (k v : Term)
    (hnd : (prev.map Prod.fst).Nodup) (hget : smapGet prev k = some v) :
    smapGet (mergeCumul simul prev) k = some ((smapGet simul v).getD v) :=
  mergeFold_get_mem simul prev simul k v hnd hget

lemma build_loop_append (x e : Term) :
    ∀ (ms : List (Term × Term)) (acc : Substitution),
      build_simultaneous_loop acc (ms ++ [(x, e)]) =
        (build_simultaneous_loop acc ms).bind (fun s => stepIns s x e) := by
  intro ms
  induction ms with
  | nil =>
    intro acc
    simp only [List.nil_append, build_simultaneous_loop, Option.some_bind]
    cases h : stepIns acc x e <;> simp [build_simultaneous_loop, h]
  | cons p rest ih =>
    intro acc
    cases p with
    | mk y f =>
      simp only [List.cons_append, build_simultaneous_loop]
      cases h : stepIns acc y f <;> simp [h, ih]


lemma catchUpStep_shape (s s' : ContextStack) (h : catchUpStep s = some s') :
    s'.stack = s.stack ∧
    s'.numCumulativeCalculated = s.numCumulativeCalculated + 1 := by
  unfold catchUpStep at h
  dsimp only at h
  repeat' split at h
  all_goals simp_all
  all_goals (cases h; exact ⟨rfl, rfl⟩)

lemma catchUpLoop_shape :
    ∀ (n : Nat) (s s' : ContextStack), catchUpLoop n s = some s' →
      s'.stack = s.stack ∧
      s'.numCumulativeCalculated = s.numCumulativeCalculated + n := by
  intro n
  induction n with
  | zero => intro s s' h; cases h; exact ⟨rfl, rfl⟩
  | succ m ih =>
    intro s s' h
    unfold catchUpLoop at h
    cases hs : catchUpStep s with
    | none => rw [hs] at h; exact absurd h (by simp)
    | some s1 =>
      rw [hs] at h
      obtain ⟨h1, h2⟩ := catchUpStep_shape s s1 hs
      obtain ⟨h3, h4⟩ := ih s1 s' h
      exact ⟨h3.trans h1, by omega⟩

lemma core_ok_shape (vec vec' : List Slot) (stk stk' : List Nat)
    (args : List (String × Term)) (vargs : List SortedVar) (id : Nat) (lk : Bool)
    (h : pushFromIdCore vec stk args vargs id lk = .ok (vec', stk')) :
    vec'.length = vec.length ∧ stk' = stk ++ [id] := by
  unfold pushFromIdCore at h
  cases lk with
  | false => cases h; exact ⟨rfl, rfl⟩
  | true =>
    simp only [if_pos] at h
    cases hp : (nth vec id dSlot).payload with
    | some c => rw [hp] at h; cases h; exact ⟨rfl, rfl⟩
    | none =>
      rw [hp] at h
      cases hb : buildContextFromArgs args vargs with
      | error e => rw [hb] at h; exact absurd h (by simp)
      | ok ctx => rw [hb] at h; cases h; exact ⟨upd_length _ _ _, rfl⟩

lemma core_payload_kept (vec vec' : List Slot) (stk stk' : List Nat)
    (args : List (String × Term)) (vargs : List SortedVar) (id id0 : Nat)
    (lk : Bool) (c : Context)
    (hp : (nth vec id0 dSlot).payload = some c)
    (h : pushFromIdCore vec stk args vargs id lk = .ok (vec', stk')) :
    nth vec' id0 dSlot = nth vec id0 dSlot := by
  unfold pushFromIdCore at h
  cases lk with
  | false => cases h; rfl
  | true =>
    simp only [if_pos] at h
    cases hq : (nth vec id dSlot).payload with
    | some c' => rw [hq] at h; cases h; rfl
    | none =>
      rw [hq] at h
      cases hb : buildContextFromArgs args vargs with
      | error e => rw [hb] at h; exact absurd h (by simp)
      | ok ctx =>
        rw [hb] at h
        cases h
        have hne : id ≠ id0 := by
          intro he; rw [he, hp] at hq; exact absurd hq (by simp)
        exact nth_upd_ne _ _ _ _ _ hne

lemma core_payload_ne (vec vec' : List Slot) (stk stk' : List Nat)
    (args : List (String × Term)) (vargs : List SortedVar) (id id0 : Nat)
    (lk : Bool) (hne : id ≠ id0)
    (h : pushFromIdCore vec stk args vargs id lk = .ok (vec', stk')) :
    nth vec' id0 dSlot = nth vec id0 dSlot := by
  unfold pushFromIdCore at h
  cases lk with
  | false => cases h; rfl
  | true =>
    simp only [if_pos] at h
    cases hq : (nth vec id dSlot).payload with
    | some c' => rw [hq] at h; cases h; rfl
    | none =>
      rw [hq] at h
      cases hb : buildContextFromArgs args vargs with
      | error e => rw [hb] at h; exact absurd h (by simp)
      | ok ctx => rw [hb] at h; cases h; exact nth_upd_ne _ _ _ _ _ hne

lemma step_push_vec (g g' : GlobalState) (w : Nat)
    (args : List (String × Term)) (vargs : List SortedVar) (id : Nat) (lk : Bool)
    (h : g.step (.pushOp w args vargs id lk) = some g') :
    ∃ stk', pushFromIdCore g.contextVec (nth g.workers w dWorker).stack
        args vargs id lk = .ok (g'.contextVec, stk') := by
  unfold GlobalState.step at h
  dsimp only at h
  cases hc : pushFromIdCore g.contextVec (nth g.workers w dWorker).stack
      args vargs id lk with
  | error e => rw [hc] at h; exact absurd h (by simp)
  | ok p =>
    cases p with
    | mk vec stk =>
      rw [hc] at h
      cases h
      exact ⟨stk, rfl⟩

lemma step_vec_length (g g' : GlobalState) (op : WOp)
    (h : g.step op = some g') : g'.contextVec.length = g.contextVec.length := by
  cases op with
  | pushOp w args vargs id lk =>
    obtain ⟨stk', hc⟩ := step_push_vec g g' w args vargs id lk h
    exact (core_ok_shape _ _ _ _ _ _ _ _ hc).1
  | popOp w =>
    unfold GlobalState.step at h
    dsimp only at h
    cases hc : popCore g.contextVec (nth g.workers w dWorker).stack
        (nth g.workers w dWorker).numCalc with
    | none => rw [hc] at h; exact absurd h (by simp)
    | some p =>
      rw [hc] at h
      obtain ⟨vec, stk, nc⟩ := p
      cases h
      unfold popCore at hc
      cases hl : (nth g.workers w dWorker).stack.getLast? with
      | none => rw [hl] at hc; cases hc; rfl
      | some id =>
        rw [hl] at hc
        dsimp only at hc
        split at hc
        · exact absurd hc (by simp)
        · cases hc; exact upd_length _ _ _

lemma step_payload_kept (g g' : GlobalState) (op : WOp) (id0 : Nat) (c : Context)
    (hpush : isPushOp op = true)
    (hp : (nth g.contextVec id0 dSlot).payload = some c)
    (h : g.step op = some g') :
    (nth g'.contextVec id0 dSlot).payload = some c := by
  cases op with
  | popOp w => simp [isPushOp] at hpush
  | pushOp w args vargs id lk =>
    obtain ⟨stk', hc⟩ := step_push_vec g g' w args vargs id lk h
    rw [core_payload_kept _ _ _ _ _ _ id id0 lk c hp hc]
    exact hp

lemma step_payload_ne (g g' : GlobalState) (w : Nat)
    (args : List (String × Term)) (vargs : List SortedVar) (id id0 : Nat)
    (lk : Bool) (hne : id ≠ id0)
    (h : g.step (.pushOp w args vargs id lk) = some g') :
    nth g'.contextVec id0 dSlot = nth g.contextVec id0 dSlot := by
  obtain ⟨stk', hc⟩ := step_push_vec g g' w args vargs id lk h
  exact core_payload_ne _ _ _ _ _ _ id id0 lk hne hc

lemma buildsAt_false_of_some (g : GlobalState) (op : WOp) (id : Nat) (c : Context)
    (hp : (nth g.contextVec id dSlot).payload = some c) :
    buildsAt g id op = false := by
  cases op with
  | popOp w => rfl
  | pushOp w args vargs id' lk =>
    by_cases he : id' = id
    · subst he; simp [buildsAt, hp]
    · simp [buildsAt, he]

lemma step_build_payload (g g' : GlobalState) (w : Nat)
    (args : List (String × Term)) (vargs : List SortedVar) (id : Nat)
    (hp : (nth g.contextVec id dSlot).payload = none)
    (hlen : id < g.contextVec.length)
    (h : g.step (.pushOp w args vargs id true) = some g') :
    ∃ c, buildContextFromArgs args vargs = .ok c ∧
      (nth g'.contextVec id dSlot).payload = some c := by
  obtain ⟨stk', hc⟩ := step_push_vec g g' w args vargs id true h
  unfold pushFromIdCore at hc
  rw [if_pos rfl, hp] at hc
  cases hb : buildContextFromArgs args vargs with
  | error e => rw [hb] at hc; exact absurd hc (by simp)
  | ok ctx =>
    rw [hb] at hc
    simp only [Except.ok.injEq, Prod.mk.injEq] at hc
    refine ⟨ctx, rfl, ?_⟩
    rw [← hc.1, nth_upd_self _ _ _ _ hlen]

lemma count_zero_of_some :
    ∀ (ops : List WOp) (g : GlobalState) (id : Nat) (c : Context),
      pushesOnly ops = true →
      (nth g.contextVec id dSlot).payload = some c →
      buildCount g id ops = 0 := by
  intro ops
  induction ops with
  | nil => intro g id c _ _; rfl
  | cons op rest ih =>
    intro g id c hpo hp
    have hop : isPushOp op = true ∧ pushesOnly rest = true := by
      simpa [pushesOnly, List.all_cons] using hpo
    unfold buildCount
    rw [buildsAt_false_of_some g op id c hp]
    cases hs : g.step op with
    | none => simp
    | some g' =>
      have hp' := step_payload_kept g g' op id c hop.1 hp hs
      simp [ih g' id c hop.2 hp']

lemma count_le_one :
    ∀ (ops : List WOp) (g : GlobalState) (id : Nat),
      pushesOnly ops = true → idsBelow g.contextVec.length ops = true →
      buildCount g id ops ≤ 1 := by
  intro ops
  induction ops with
  | nil => intro g id _ _; exact Nat.zero_le 1
  | cons op rest ih =>
    intro g id hpo hin
    have hop : isPushOp op = true ∧ pushesOnly rest = true := by
      simpa [pushesOnly, List.all_cons] using hpo
    cases op with
    | popOp w => simp [isPushOp] at hop
    | pushOp w args vargs id' lk =>
      have hin' : id' < g.contextVec.length ∧
          idsBelow g.contextVec.length rest = true := by
        simpa [idsBelow, List.all_cons] using hin
      unfold buildCount
      cases hs : g.step (.pushOp w args vargs id' lk) with
      | none => split <;> simp
      | some g' =>
        have hrest : idsBelow g'.contextVec.length rest = true := by
          rw [step_vec_length g g' _ hs]; exact hin'.2
        by_cases hb : buildsAt g id (.pushOp w args vargs id' lk) = true
        · have hdec : (id' = id ∧ lk = true) ∧
              (nth g.contextVec id' dSlot).payload = none := by
            simpa [buildsAt, Option.isNone_iff_eq_none] using hb
          obtain ⟨⟨he, hlk⟩, hpn⟩ := hdec
          subst he
          subst hlk
          obtain ⟨c, _, hp'⟩ :=
            step_build_payload g g' w args vargs id' hpn hin'.1 hs
          rw [hb]
          simp [count_zero_of_some rest g' id' c hop.2 hp']
        · rw [Bool.not_eq_true] at hb
          rw [hb]
          simpa using ih g' id hop.2 hrest

lemma runOps_cons_some (g g' : GlobalState) (op : WOp) (rest : List WOp)
    (hs : g.step op = some g') :
    runOps g (op :: rest) = runOps g' rest := by
  show (match g.step op with
        | none => none
        | some g2 => runOps g2 rest) = runOps g' rest
  rw [hs]

lemma count_eq_one :
    ∀ (ops : List WOp) (g : GlobalState) (id : Nat),
      pushesOnly ops = true → idsBelow g.contextVec.length ops = true →
      allLockOk ops = true →
      (nth g.contextVec id dSlot).payload = none →
      ops.any (isPushOn id) = true →
      (runOps g ops).isSome = true →
      buildCount g id ops = 1 := by
  intro ops
  induction ops with
  | nil => intro g id _ _ _ _ hany _; simp at hany
  | cons op rest ih =>
    intro g id hpo hin hlk hp hany hrun
    have hop : isPushOp op = true ∧ pushesOnly rest = true := by
      simpa [pushesOnly, List.all_cons] using hpo
    cases op with
    | popOp w => simp [isPushOp] at hop
    | pushOp w args vargs id' lk =>
      have hin' : id' < g.contextVec.length ∧
          idsBelow g.contextVec.length rest = true := by
        simpa [idsBelow, List.all_cons] using hin
      have hlk' : lk = true ∧ allLockOk rest = true := by
        simpa [allLockOk, List.all_cons, opLockOk] using hlk
      obtain ⟨hlkt, hlkr⟩ := hlk'
      subst hlkt
      cases hs : g.step (.pushOp w args vargs id' true) with
      | none =>
        have hnone : runOps g (.pushOp w args vargs id' true :: rest) = none := by
          show (match g.step (.pushOp w args vargs id' true) with
                | none => none
                | some g2 => runOps g2 rest) = none
          rw [hs]
        rw [hnone] at hrun
        simp at hrun
      | some g' =>
        have hrun' : (runOps g' rest).isSome = true := by
          rwa [runOps_cons_some g g' _ rest hs] at hrun
        have hrest : idsBelow g'.contextVec.length rest = true := by
          rw [step_vec_length g g' _ hs]; exact hin'.2
        by_cases he : id' = id
        · subst he
          have hb : buildsAt g id' (.pushOp w args vargs id' true) = true := by
            simp [buildsAt, hp]
          obtain ⟨c, _, hp'⟩ :=
            step_build_payload g g' w args vargs id' hp hin'.1 hs
          unfold buildCount
          rw [hb, hs]
          simp [count_zero_of_some rest g' id' c hop.2 hp']
        · have hb : buildsAt g id (.pushOp w args vargs id' true) = false := by
            simp [buildsAt, he]
          have hp' : (nth g'.contextVec id dSlot).payload = none := by
            rw [step_payload_ne g g' w args vargs id' id true he hs]; exact hp
          have hany' : rest.any (isPushOn id) = true := by
            simpa [List.any_cons, isPushOn, he] using hany
          unfold buildCount
          rw [hb, hs]
          simpa using ih g' id hop.2 hrest hlkr hp' hany' hrun'

/-- Claim C1, counterexample.  In scenario C (push `[("y", z)]` then
`[("x", f(y))]`), `apply(x)` returns `f(y)`, not `f(z)` as claimed.  In the
nested scenario push `[("x", f(z))]` then `[("z", w)]`, `apply(x)` returns
`f(z)` while frame 1's simultaneous substitution applied to
`apply_previous(x)` returns `f(w)`, refuting the general equation
`apply_at(i, t) = S_i(apply_at(i-1, t))`. -/
theorem c1_compositionality_counterexample :
    (applySnd scenC xv = some fy ∧ fy ≠ fz) ∧
    (applySnd scen2 xv = some fz ∧ applyPrevSnd scen2 xv = some fz ∧
      (build_simultaneous_substitution [(zv, wv)]).map (fun s => s.apply fz) =
        some fw ∧ fz ≠ fw) :=
  ⟨⟨by decide, by decide⟩, by decide, by decide, by decide, by decide⟩

/-- Claim C1, amended.  The cumulative substitution composes by whole-term
lookup, not by application: for every key `k` of the previous cumulative
substitution, the merged map sends `k` to the lookup of its value in the
current frame's simultaneous map, falling back to the value itself.  In the
concrete scenario (push `[("y", z)]` ctx 0, then `[("x", f(y))]` ctx 1),
`apply(x)` returns `f(y)` and `apply_previous(y)` returns `z`. -/
theorem c1_compositionality_amended :
    (∀ (simul prev : Smap) (k v : Term),
        (prev.map Prod.fst).Nodup → smapGet prev k = some v →
        smapGet (mergeCumul simul prev) k = some ((smapGet simul v).getD v)) ∧
    applySnd scenC xv = some fy ∧
    applyPrevSnd scenC yv = some zv := by
  refine ⟨?_, by decide, by decide⟩
  intro simul prev k v hnd hget
  exact mergeCumul_get simul prev k v hnd hget

/-- Witness for the amended claim C1 at a concrete merge instance. -/
theorem c1_compositionality_amended_witness :
    ([(yv, zv)].map Prod.fst).Nodup ∧
    smapGet [(yv, zv)] yv = some zv ∧
    smapGet (mergeCumul [(xv, fy)] [(yv, zv)]) yv =
      some ((smapGet [(xv, fy)] zv).getD zv) :=
  ⟨by decide, by decide,
    c1_compositionality_amended.1 [(xv, fy)] [(yv, zv)] yv zv
      (by decide) (by decide)⟩

/-- Claim C2: build-once.  A push on a slot whose payload is already built,
or whose `try_write` failed, leaves the registry unchanged and still pushes
the id onto the local stack; a push acquiring the lock on an empty slot
installs exactly the context built from its arguments; along any pushes-only
trace a slot is built at most once, and exactly once when all locks are
acquired, the slot starts empty, some push targets it and the run succeeds;
in scenario D (usage 2, two workers) the build happens once and after both
pops the slot is `⟨0, none⟩`. -/
theorem c2_build_once :
    (∀ (vec : List Slot) (stk : List Nat) (args : List (String × Term))
        (vargs : List SortedVar) (id : Nat) (c : Context),
        (nth vec id dSlot).payload = some c →
        pushFromIdCore vec stk args vargs id true = .ok (vec, stk ++ [id])) ∧
    (∀ (vec : List Slot) (stk : List Nat) (args : List (String × Term))
        (vargs : List SortedVar) (id : Nat),
        pushFromIdCore vec stk args vargs id false = .ok (vec, stk ++ [id])) ∧
    (∀ (vec : List Slot) (stk : List Nat) (args : List (String × Term))
        (vargs : List SortedVar) (id : Nat) (ctx : Context),
        (nth vec id dSlot).payload = none →
        buildContextFromArgs args vargs = .ok ctx →
        pushFromIdCore vec stk args vargs id true =
          .ok (upd vec id ⟨(nth vec id dSlot).remaining, some ctx⟩,
               stk ++ [id])) ∧
    (∀ (ops : List WOp) (g : GlobalState) (id : Nat),
        pushesOnly ops = true → idsBelow g.contextVec.length ops = true →
        buildCount g id ops ≤ 1) ∧
    (∀ (ops : List WOp) (g : GlobalState) (id : Nat),
        pushesOnly ops = true → idsBelow g.contextVec.length ops = true →
        allLockOk ops = true →
        (nth g.contextVec id dSlot).payload = none →
        ops.any (isPushOn id) = true → (runOps g ops).isSome = true →
        buildCount g id ops = 1) ∧
    (buildCount gD 0 opsW = 1 ∧
      (runOps gD opsD).map (fun g => nth g.contextVec 0 dSlot) =
        some ⟨0, none⟩) := by
  refine ⟨?_, ?_, ?_, ?_, ?_, by decide, by decide⟩
  · intro vec stk args vargs id c hp
    unfold pushFromIdCore
    rw [if_pos rfl, hp]
  · intro vec stk args vargs id
    rfl
  · intro vec stk args vargs id ctx hp hb
    unfold pushFromIdCore
    rw [if_pos rfl, hp, hb]
  · exact count_le_one
  · exact count_eq_one

/-- Witness for claim C2: the exactly-once count applied to the two pushes
of scenario F's registry. -/
theorem c2_build_once_witness :
    (pushesOnly opsW = true ∧ idsBelow gF.contextVec.length opsW = true ∧
     allLockOk opsW = true ∧ (nth gF.contextVec 0 dSlot).payload = none ∧
     opsW.any (isPushOn 0) = true ∧ (runOps gF opsW).isSome = true) ∧
    buildCount gF 0 opsW = 1 :=
  ⟨⟨by decide, by decide, by decide, by decide, by decide, by decide⟩,
    c2_build_once.2.2.2.2.1 opsW gF 0 (by decide) (by decide) (by decide)
      (by decide) (by decide) (by decide)⟩

/-- Claim C3: building the simultaneous substitution is a bottom-up fold in
which each new value is first rewritten by the substitution accumulated so
far; for `[(y,z),(x,f(y))]` the result maps `y` to `z` and `x` to `f(z)`,
while the swapped order maps `x` to `f(y)` and `y` to `z`. -/
theorem c3_order_sensitivity :
    (∀ (ms : List (Term × Term)) (x e : Term),
      build_simultaneous_substitution (ms ++ [(x, e)]) =
        (build_simultaneous_substitution ms).bind (fun s => stepIns s x e)) ∧
    (build_simultaneous_substitution [(yv, zv), (xv, fy)]).map
        (fun s => (smapGet s.map yv, smapGet s.map xv)) =
      some (some zv, some fz) ∧
    (build_simultaneous_substitution [(xv, fy), (yv, zv)]).map
        (fun s => (smapGet s.map xv, smapGet s.map yv)) =
      some (some fy, some zv) := by
  refine ⟨?_, by decide, by decide⟩
  intro ms x e
  exact build_loop_append x e ms Substitution.empty

/-- Claim C4: when a key is present both in the previous cumulative
substitution and in the current frame's simultaneous substitution, the merge
of `catch_up_cumulative` keeps the previous entry, with its value rewritten
by lookup in the simultaneous map; concretely, after pushing `[("x", z)]`
then `[("x", w)]`, `apply(x)` returns the outer value `z`. -/
theorem c4_tie_break :
    (∀ (simul prev : Smap) (k v v' : Term),
        (prev.map Prod.fst).Nodup → smapGet prev k = some v →
        smapGet simul k = some v' →
        smapGet (mergeCumul simul prev) k = some ((smapGet simul v).getD v)) ∧
    applySnd scen4 xv = some zv := by
  refine ⟨?_, by decide⟩
  intro simul prev k v v' hnd hget _
  exact mergeCumul_get simul prev k v hnd hget

/-- Witness for claim C4 at a concrete key collision. -/
theorem c4_tie_break_witness :
    ([(yv, zv)].map Prod.fst).Nodup ∧
    smapGet [(yv, zv)] yv = some zv ∧
    smapGet [(yv, fy)] yv = some fy ∧
    smapGet (mergeCumul [(yv, fy)] [(yv, zv)]) yv =
      some ((smapGet [(yv, fy)] zv).getD zv) :=
  ⟨by decide, by decide, by decide,
    c4_tie_break.1 [(yv, fy)] [(yv, zv)] yv zv fy
      (by decide) (by decide) (by decide)⟩

/-- Claim C5: `catch_up_cumulative(up_to)` advances
`num_cumulative_calculated` from its current value to the greater of
`up_to + 1` and the stack length (and never below its current value), leaves
the stack itself unchanged, is an exact no-op when the target is already
reached, and is idempotent at the same stack state. -/
theorem c5_catch_up_advance_idempotent :
    ∀ (s s' : ContextStack) (upTo : Nat),
      (s.catch_up_cumulative upTo = some s' →
        s'.numCumulativeCalculated =
          max s.numCumulativeCalculated (max (upTo + 1) s.stack.length) ∧
        s'.stack = s.stack) ∧
      (max (upTo + 1) s.stack.length ≤ s.numCumulativeCalculated →
        s.catch_up_cumulative upTo = some s) ∧
      (s.catch_up_cumulative upTo = some s' →
        s'.catch_up_cumulative upTo = some s') := by
  intro s s' upTo
  refine ⟨?_, ?_, ?_⟩
  · intro h
    unfold ContextStack.catch_up_cumulative at h
    obtain ⟨h1, h2⟩ := catchUpLoop_shape _ _ _ h
    exact ⟨by omega, h1⟩
  · intro h
    unfold ContextStack.catch_up_cumulative
    rw [Nat.sub_eq_zero_of_le h]
    rfl
  · intro h
    unfold ContextStack.catch_up_cumulative at h
    obtain ⟨h1, h2⟩ := catchUpLoop_shape _ _ _ h
    unfold ContextStack.catch_up_cumulative
    rw [h1]
    have hle : max (upTo + 1) s.stack.length ≤ s'.numCumulativeCalculated := by
      omega
    rw [Nat.sub_eq_zero_of_le hle]
    rfl

/-- Witness for claim C5: catching up a state whose target is already
reached is a no-op with the stated final count. -/
theorem c5_catch_up_witness :
    max (3 + 1) (⟨[], [], 5⟩ : ContextStack).stack.length ≤
      (⟨[], [], 5⟩ : ContextStack).numCumulativeCalculated ∧
    (⟨[], [], 5⟩ : ContextStack).catch_up_cumulative 3 = some ⟨[], [], 5⟩ :=
  ⟨by decide,
    (c5_catch_up_advance_idempotent ⟨[], [], 5⟩ ⟨[], [], 5⟩ 3).2.1 (by decide)⟩

/-- Claim C6: a completed `pop` on a non-empty stack decrements the popped
slot's counter by exactly one, drops the payload exactly when the counter
reaches zero, clamps `num_cumulative_calculated` to the new stack length,
and touches no other slot. -/
theorem c6_pop_decrements :
    ∀ (s : ContextStack) (id : Nat),
      s.stack.getLast? = some id → id < s.contextVec.length →
      0 < (nth s.contextVec id dSlot).remaining →
      ∃ s', s.pop = some s' ∧
        s'.stack = s.stack.dropLast ∧
        (nth s'.contextVec id dSlot).remaining =
          (nth s.contextVec id dSlot).remaining - 1 ∧
        (nth s'.contextVec id dSlot).payload =
          (if (nth s.contextVec id dSlot).remaining - 1 = 0 then none
           else (nth s.contextVec id dSlot).payload) ∧
        s'.numCumulativeCalculated =
          min s.numCumulativeCalculated s'.stack.length ∧
        (∀ j, j ≠ id → nth s'.contextVec j dSlot = nth s.contextVec j dSlot) ∧
        s'.contextVec.length = s.contextVec.length := by
  intro s id hlast hlen hr
  unfold ContextStack.pop popCore
  rw [hlast]
  dsimp only
  rw [if_neg (by omega)]
  refine ⟨_, rfl, rfl, ?_, ?_, rfl, ?_, ?_⟩
  · rw [nth_upd_self _ _ _ _ hlen]
  · rw [nth_upd_self _ _ _ _ hlen]
  · intro j hj
    exact nth_upd_ne _ _ _ _ _ (fun h => hj h.symm)
  · exact upd_length _ _ _

/-- Witness for claim C6 on a one-slot stack with counter 2. -/
theorem c6_pop_decrements_witness :
    (⟨[⟨2, some cEx⟩], [0], 1⟩ : ContextStack).stack.getLast? = some 0 ∧
    ∃ s', (⟨[⟨2, some cEx⟩], [0], 1⟩ : ContextStack).pop = some s' ∧
      s'.stack = [] ∧
      (nth s'.contextVec 0 dSlot).remaining = 1 ∧
      (nth s'.contextVec 0 dSlot).payload = some cEx ∧
      s'.numCumulativeCalculated = 0 := by
  have h := c6_pop_decrements ⟨[⟨2, some cEx⟩], [0], 1⟩ 0 rfl
    (by decide) (by decide)
  obtain ⟨s', h1, h2, h3, h4, h5, _⟩ := h
  refine ⟨rfl, s', h1, h2.trans rfl, h3.trans rfl, ?_, ?_⟩
  · rw [h4]; rfl
  · rw [h5, h2]; rfl

/-- Claim C7: `pop` hits the fatal assertion exactly when the popped slot's
counter is already zero; in scenario F (usage 1, two workers), the first
three operations succeed and the trace ending with the second pop aborts. -/
theorem c7_pop_underflow_fatal :
    (∀ s : ContextStack, s.pop = none ↔
      ∃ id, s.stack.getLast? = some id ∧
        (nth s.contextVec id dSlot).remaining = 0) ∧
    (runOps gF opsF3).isSome = true ∧ runOps gF opsF = none := by
  refine ⟨?_, by decide, by decide⟩
  intro s
  unfold ContextStack.pop popCore
  cases hl : s.stack.getLast? with
  | none => simp
  | some id =>
    dsimp only
    by_cases hr : (nth s.contextVec id dSlot).remaining = 0
    · simp [hr]
    · simp [hr]

/-- Witness for claim C7: the assertion fires on a slot whose counter is
already zero. -/
theorem c7_pop_underflow_fatal_witness :
    (⟨[⟨0, none⟩], [0], 0⟩ : ContextStack).pop = none :=
  (c7_pop_underflow_fatal.1 ⟨[⟨0, none⟩], [0], 0⟩).mpr ⟨0, rfl, rfl⟩

/-- Claim C8: with an empty stack `apply` returns the term unchanged, and
with fewer than two frames `apply_previous` does; neither signals an
error. -/
theorem c8_empty_stack_identity :
    ∀ (s : ContextStack) (t : Term),
      (s.stack = [] → s.apply t = some (s, t)) ∧
      (s.stack.length < 2 → s.apply_previous t = some (s, t)) := by
  intro s t
  constructor
  · intro h
    unfold ContextStack.apply
    rw [if_pos (by simp [h])]
  · intro h
    unfold ContextStack.apply_previous
    rw [if_pos h]

/-- Witness for claim C8 on a freshly initialised stack. -/
theorem c8_empty_stack_identity_witness :
    (ContextStack.from_usage [1]).stack = [] ∧
    (ContextStack.from_usage [1]).apply xv =
      some (ContextStack.from_usage [1], xv) ∧
    (ContextStack.from_usage [1]).apply_previous xv =
      some (ContextStack.from_usage [1], xv) :=
  ⟨rfl, (c8_empty_stack_identity (ContextStack.from_usage [1]) xv).1 rfl,
    (c8_empty_stack_identity (ContextStack.from_usage [1]) xv).2 (by decide)⟩

/-- Claim C9: the multi-threaded `ContextStack::push` unconditionally
returns `Err(SubstitutionError::NotAVariable(Term::Sort(Sort::Bool)))` and
leaves the stack untouched, for every state and every arguments. -/
theorem c9_push_always_errors :
    ∀ (s : ContextStack) (args : List (String × Term))
      (vargs : List SortedVar),
      ContextStack.push s args vargs =
        (s, .error (.notAVariable (Term.sort "Bool"))) := by
  intro s args vargs
  rfl

/-- Claim C10: popping an empty stack is a silent no-op: no assertion, no
counter change, no payload drop, and `num_cumulative_calculated` clamps to
zero. -/
theorem c10_pop_empty_noop : ∀ s : ContextStack, s.stack = [] →
    s.pop = some ⟨s.contextVec, [], 0⟩ := by
  intro s h
  unfold ContextStack.pop popCore
  rw [h]
  simp

/-- Witness for claim C10 on an empty stack over a populated registry. -/
theorem c10_pop_empty_noop_witness :
    (⟨[⟨2, none⟩], [], 0⟩ : ContextStack).pop = some ⟨[⟨2, none⟩], [], 0⟩ :=
  c10_pop_empty_noop ⟨[⟨2, none⟩], [], 0⟩ rfl
